import Mathlib

/-!
Verification of the API layer of an electron-based music client
(`src/main/api/index.js`) against its natural-language specification.

The development shallowly embeds the relevant parts of the source:
pure request-building functions become Lean functions, the promise-based
filesystem walks become functions into an explicit promise-outcome type,
and the stateful pieces (cookie jar, caches, the single-flight fetch
coordinator of the music server) become explicit state passing or small
transition systems.  Components of the repository that are not part of
the provided source tree (the `Cache`, `httpClient`, crypto codec and
`MusicServer` modules) are modelled from the specification text; each
such definition carries a doc comment starting with `Modelled from the
spec:`.
-/

/-! ## Cookie jar and logout (C3)

`updateCookie` in `index.js` forwards to `client.updateCookie`; per its
doc comment ("clear all cookies, and set cookie as given arguments") and
the spec ("replaces the entire cookie set; passing nothing clears it"),
calling it with no argument clears the whole cookie set. -/

/-- A cookie set: a mapping from cookie names to values. -/
abbrev CookieSet := List (String × String)

/-- Modelled from the spec: `client.updateCookie` of the `httpClient`
module (not under `src/`): "replaces the entire cookie set; passing
nothing clears it". -/
def updateCookie (_jar : CookieSet) (arg : Option CookieSet) : CookieSet :=
  match arg with
  | none => []
  | some c => c

/-- A vendor API response, reduced to the `code` field that `logout`
inspects.  JS numbers are modelled as integers. -/
structure ApiResp where
  code : Int
deriving DecidableEq

/-- Result of running `logout` against a given response and cookie
state: the returned code, the cookie set afterwards, and whether
`client.updateCookie()` was invoked. -/
structure LogoutResult where
  ret : Int
  jar : CookieSet
  calledUpdateCookie : Bool
deriving DecidableEq

/-- Embedding of `logout` (`index.js` lines 71-77): await the `/logout`
response, and only when `resp.code === 200` call `client.updateCookie()`
with no argument; always return `resp.code`. -/
def logout (resp : ApiResp) (jar : CookieSet) : LogoutResult :=
  if resp.code = 200 then
    { ret := resp.code, jar := updateCookie jar none, calledUpdateCookie := true }
  else
    { ret := resp.code, jar := jar, calledUpdateCookie := false }

/-! ## Music URL request builders (C5) -/

/-- The member names a plain JS object literal inherits from
`Object.prototype`: indexing `QualityMap` with one of them yields a
truthy inherited function (or, for `__proto__`, the prototype object),
not `undefined`. -/
def objectPrototypeKeys : List String :=
  ["constructor", "hasOwnProperty", "isPrototypeOf", "propertyIsEnumerable",
   "toLocaleString", "toString", "valueOf", "__defineGetter__",
   "__defineSetter__", "__lookupGetter__", "__lookupSetter__", "__proto__"]

/-- The result of the JS property lookup `QualityMap[quality]`: an own
numeric entry, an inherited `Object.prototype` member, or
`undefined`. -/
inductive JsProp where
  | num (n : Nat)
  | inherited (name : String)
  | undefJs
deriving DecidableEq

/-- JS truthiness of the looked-up property: `undefined` and `0` are
falsy, inherited functions and objects are truthy. -/
def jsPropTruthy : JsProp → Bool
  | .num n => n != 0
  | .inherited _ => true
  | .undefJs => false

/-- Embedding of the lookup `QualityMap[quality]` on the `QualityMap`
object literal (`index.js` lines 184-188): the own keys `h`/`m`/`l`
hold the bitrates; any other name falls through to the prototype
chain, where the `Object.prototype` members are found; everything else
is `undefined`. -/
def QualityMap (q : String) : JsProp :=
  if q = "h" then .num 320000
  else if q = "m" then .num 192000
  else if q = "l" then .num 128000
  else if q ∈ objectPrototypeKeys then .inherited q
  else .undefJs

/-- The `idOrIds` argument of the music-url functions: either a single
track id or an array of ids. -/
inductive IdOrIds where
  | one (id : Nat)
  | many (ids : List Nat)
deriving DecidableEq

/-- Embedding of `Array.isArray(idOrIds) ? idOrIds : [idOrIds]`: a single id is
wrapped into a one-element list. -/
def wrapIds : IdOrIds → List Nat
  | .one i => [i]
  | .many is => is

/-- The request a music-url function hands to the protocol client:
the URL path, the wire variant, and the `{ids, br}` body (`br` is
whatever `QualityMap[quality]` looked up). -/
structure MusicUrlRequest where
  path : String
  variant : String
  ids : List Nat
  br : JsProp
deriving DecidableEq

/-- The error message thrown for a falsy quality lookup
(template literal `Quality type (q) is not in [h,m,l]`). -/
def qualityErrMsg (quality : String) : String :=
  "Quality type \x27" ++ quality ++ "\x27 is not in [h,m,l]"

/-- Embedding of `getMusicUrlW` (`index.js` lines 196-205).  JS
`!QualityMap[quality]` is true exactly when the property lookup is
falsy (`undefined`, or `0`, which does not occur among the own
entries); otherwise the request is issued with `br` bound to the
looked-up value. -/
def getMusicUrlW (idOrIds : IdOrIds) (quality : String) : Except String MusicUrlRequest :=
  if jsPropTruthy (QualityMap quality) = false then
    .error (qualityErrMsg quality)
  else
    .ok { path := "/song/enhance/player/url", variant := "web",
          ids := wrapIds idOrIds, br := QualityMap quality }

/-- Embedding of `getMusicUrlL` (`index.js` lines 213-222). -/
def getMusicUrlL (idOrIds : IdOrIds) (quality : String) : Except String MusicUrlRequest :=
  if jsPropTruthy (QualityMap quality) = false then
    .error (qualityErrMsg quality)
  else
    .ok { path := "/api/song/enhance/player/url", variant := "linux",
          ids := wrapIds idOrIds, br := QualityMap quality }

/-- Embedding of `getMusicUrlE` (`index.js` lines 230-239). -/
def getMusicUrlE (idOrIds : IdOrIds) (quality : String) : Except String MusicUrlRequest :=
  if jsPropTruthy (QualityMap quality) = false then
    .error (qualityErrMsg quality)
  else
    .ok { path := "/song/enhance/player/url", variant := "eapi",
          ids := wrapIds idOrIds, br := QualityMap quality }

/-! ## Local music-server URL (C6) -/

/-- Node `querystring.stringify`: keys joined with `&`, each as `key=value`. -/
def jsQueryString (q : List (String × String)) : String :=
  String.intercalate "&" (q.map (fun p => p.1 ++ "=" ++ p.2))

/-- Node's `String(bool)` conversion, as applied by
`querystring.stringify` to a boolean query value. -/
def jsBoolString (b : Bool) : String :=
  if b then "true" else "false"

/-- Node `url.format` for the fields `getMusicUrlLocal` passes: protocol
`http:`, a hostname (hence `//`), a numeric port, a pathname and a query
object serialized by `querystring.stringify`. -/
def urlFormat (hostname : String) (port : Nat) (pathname : String)
    (query : List (String × String)) : String :=
  "http://" ++ hostname ++ ":" ++ toString port ++ pathname ++ "?" ++ jsQueryString query

/-- The query object built by `getMusicUrlLocal` (`index.js` line 255):
`ignoreCache ? { id, quality, ignoreCache } : { id, quality }`, with
values stringified the way `querystring.stringify` does. -/
def musicUrlQuery (id : Nat) (quality : String) (ignoreCache : Bool) :
    List (String × String) :=
  if ignoreCache then
    [("id", toString id), ("quality", quality), ("ignoreCache", jsBoolString ignoreCache)]
  else
    [("id", toString id), ("quality", quality)]

/-- The resolved value of `getMusicUrlLocal`. -/
structure MusicUrlLocalRes where
  url : String
deriving DecidableEq

/-- Embedding of `getMusicUrlLocal` (`index.js` lines 248-258); the
module-level `musicServerPort` (the OS-assigned ephemeral port reported
by `musicServer.listen()`) is passed explicitly. -/
def getMusicUrlLocal (musicServerPort : Nat) (id : Nat) (quality : String)
    (ignoreCache : Bool) : MusicUrlLocalRes :=
  { url := urlFormat "localhost" musicServerPort "/music"
      (musicUrlQuery id quality ignoreCache) }

/-! ## Cached lyric fetch (C4)

The `Cache` class is not under `src/`; its operations are modelled from
the spec (section 4.3): `has(key)` is true iff a complete entry exists
at the derived path, `save(key, data)` writes `data` under the path
derived from `key`, and reading a saved entry back yields the saved
data (the cache file stores the JSON serialization, which
`getMusicLyricCached` parses back with `JSON.parse`). -/

/-- Modelled from the spec: the state of the lyric `Cache` (the `Cache`
class is not under `src/`): a key-to-entry store, one complete entry per
key.  The stored value stands for the JSON-parsed content of the cache
file. -/
structure LyricCache (α : Type) where
  entries : List (String × α)
deriving DecidableEq

/-- Modelled from the spec: `Cache.has(key)` — "true iff a complete
entry exists at the derived path". -/
def cacheHas (c : LyricCache α) (key : String) : Bool :=
  (c.entries.lookup key).isSome

/-- Modelled from the spec: `Cache.save(key, data)` — "writes data to
the derived path". -/
def cacheSave (c : LyricCache α) (key : String) (v : α) : LyricCache α :=
  ⟨(key, v) :: c.entries⟩

/-- The key `id.toString()` used by `getMusicLyricCached`. -/
def lyricKey (id : Nat) : String := toString id

/-- Result of one `getMusicLyricCached` call: the returned value, the
cache state afterwards, and whether an upstream lyric fetch
(`getMusicLyric`) was performed. -/
structure CachedLyricResult (α : Type) where
  value : α
  cache : LyricCache α
  fetched : Bool
deriving DecidableEq

/-- Embedding of `getMusicLyricCached` (`index.js` lines 410-421):
check `lyricCache.has(id.toString())`; on a hit with `ignoreCache`
false, read and JSON-parse the cached file; otherwise fetch upstream
(`upstream` is the value `getMusicLyric(id)` would resolve with) and
save it under `id.toString()`. -/
def getMusicLyricCached (c : LyricCache α) (id : Nat) (ignoreCache : Bool)
    (upstream : α) : CachedLyricResult α :=
  match c.entries.lookup (lyricKey id), ignoreCache with
  | some v, false => { value := v, cache := c, fetched := false }
  | _, _ =>
    { value := upstream, cache := cacheSave c (lyricKey id) upstream, fetched := true }

/-! ## Single-flight fetch coordination (C1)

The `MusicServer` module is not under `src/`; the single-flight
coordinator is modelled from the spec (sections 4.4 and 5): a
process-wide map from cache key to an in-flight fetch coordinator,
consulted and updated by an atomic check-and-insert.  A request whose
key has an in-flight fetch attaches to it as a waiter; otherwise the
request becomes the coordinator and starts the one upstream fetch. -/

/-- Modelled from the spec: the shared state of the single-flight
coordinator.  `inflight` is the set of keys with an in-flight fetch,
`started` records every upstream fetch ever started (one entry per
fetch), `waiters` records every request that attached to an existing
in-flight fetch. -/
structure SingleFlightState where
  inflight : List String
  started : List String
  waiters : List String
deriving DecidableEq

/-- Modelled from the spec: the empty coordinator state (no in-flight
fetch, no fetch performed yet). -/
def sfInit : SingleFlightState := ⟨[], [], []⟩

/-- Modelled from the spec: one media request for cache key `k`
performing the atomic check-and-insert: if a fetch for `k` is in
flight the request attaches to it as a waiter, otherwise it inserts
`k` and starts the single upstream fetch. -/
def sfHandleRequest (s : SingleFlightState) (k : String) : SingleFlightState :=
  if k ∈ s.inflight then
    { s with waiters := k :: s.waiters }
  else
    { s with inflight := k :: s.inflight, started := k :: s.started }

/-- A batch of concurrent requests: each request's check-and-insert is
atomic, so any interleaving is a sequence of `sfHandleRequest` steps. -/
def sfHandleAll (s : SingleFlightState) (ks : List String) : SingleFlightState :=
  ks.foldl sfHandleRequest s

/-! ## Bulk cache deletion versus in-flight saves (C7)

`removeRecursive`/`clearCache` (in `src/`) unlink every file below the
cache root.  The save path of the `Cache` class is not under `src/` and
is modelled from the spec (section 4.3): "a writer stages to a
temporary path and renames/moves into place atomically on success", so
a partially-written file is never visible under the final path of an
entry.  The interaction is modelled as a trace of atomic events over a
small filesystem: staging a write, committing (the atomic rename), and
an unlink performed by the deletion walk. -/

/-- A path in the cache root: the final path of the entry for a key, or
the temporary staging path of an in-flight save. -/
inductive CachePath where
  | final (key : String)
  | temp (key : String)
deriving DecidableEq

/-- A cache filesystem: the set of present files, each with a flag
telling whether its content is fully written. -/
abbrev CacheFs := List (CachePath × Bool)

/-- An atomic event: `stage k` starts an in-flight save for key `k`
(creates the staged, not yet fully written file), `commit k` atomically
renames the staged file to the final path (now fully written), and
`unlink p` is one deletion performed by the `removeRecursive` walk. -/
inductive CacheEv where
  | stage (key : String)
  | commit (key : String)
  | unlink (p : CachePath)
deriving DecidableEq

/-- One atomic step of the model.  `stage` is modelled from the spec
(staging to a temporary path, content not yet complete); `commit` is
the atomic rename of the spec's save contract; `unlink` removes the
file at `p`, exactly what one step of `removeRecursive`
(`index.js` lines 496-509) does to a file entry. -/
def cacheStep (fs : CacheFs) : CacheEv → CacheFs
  | .stage k => (CachePath.temp k, false) :: fs
  | .commit k =>
    (CachePath.final k, true) :: fs.filter (fun f => f.1 ≠ CachePath.temp k)
  | .unlink p => fs.filter (fun f => f.1 ≠ p)

/-- The filesystem reached by running a trace of events from the empty
cache root. -/
def cacheExec (evs : List CacheEv) : CacheFs :=
  evs.foldl cacheStep []

/-- The files that an `unlink p` step of the deletion walk removes from
filesystem state `fs`. -/
def unlinkRemoves (fs : CacheFs) (p : CachePath) : CacheFs :=
  fs.filter (fun f => f.1 = p)


/-- The C7 safety invariant: every file visible under the final path of
a cache entry is fully written. -/
def cacheInv (fs : CacheFs) : Prop :=
  ∀ k b, (CachePath.final k, b) ∈ fs → b = true

/-! ## Recursive disk usage and cache clearing (C8, C10)

`getDiskUsage`, `removeRecursive`, `getDataSize` and `clearCache`
(`index.js` lines 478-545) walk a filesystem with promise chains.  A
promise is modelled by its outcome: resolved with a value, rejected
with an error message, or pending forever (which happens in the source
whenever a settlement path is missing — notably, the
`fsPromises.readdir(...).then(...)` chain has no `.catch(reject)`, so a
`readdir` failure settles nothing).  The filesystem is a tree: regular
files and symbolic links carry their `lstat` size; `statErr` is a node
whose `lstat` rejects; `special` is a node that is neither a file, a
symlink nor a directory (no branch of the source resolves for it); a
directory carries a flag telling whether its `readdir` fails, and its
entries. -/

/-- A filesystem tree as observed through `lstat`/`readdir`. -/
inductive FsTree where
  | file (size : Nat)
  | symlink (size : Nat)
  | statErr (msg : String)
  | special
  | dir (readdirErr : Bool) (entries : List FsTree)

/-- The outcome of a JS promise: resolved, rejected, or never settled. -/
inductive POutcome (α : Type) where
  | resolved (value : α)
  | rejected (msg : String)
  | pending
deriving DecidableEq

/-- Applying `Promise.prototype.then` on a settled promise. -/
def POutcome.map (f : α → β) : POutcome α → POutcome β
  | .resolved v => .resolved (f v)
  | .rejected e => .rejected e
  | .pending => .pending

/-- One step of `Promise.all`: it rejects as soon as any member
rejects (even if others are still pending), is pending if no member
rejected but one is still pending, and otherwise resolves with the list
of values. -/
def promiseAllCons : POutcome α → POutcome (List α) → POutcome (List α)
  | .rejected e, _ => .rejected e
  | _, .rejected e => .rejected e
  | .pending, _ => .pending
  | _, .pending => .pending
  | .resolved v, .resolved vs => .resolved (v :: vs)

mutual

/-- Embedding of `getDiskUsage` (`index.js` lines 478-494): `lstat`; a
file or symlink resolves with its size; a directory `readdir`s and
resolves with the sum of the recursive sizes via `Promise.all`;
`lstat` failures and failures of the recursive calls reject (through
the `.catch(reject)` handlers); a `readdir` failure, or a node that is
neither file, symlink nor directory, settles nothing. -/
def getDiskUsage : FsTree → POutcome Nat
  | .file s => .resolved s
  | .symlink s => .resolved s
  | .statErr e => .rejected e
  | .special => .pending
  | .dir true _ => .pending
  | .dir false es => (getDiskUsageAll es).map (fun sizes => sizes.foldl (· + ·) 0)

/-- Embedding of `Promise.all(files.map(file => getDiskUsage(path.join(pathname, file))))`. -/
def getDiskUsageAll : List FsTree → POutcome (List Nat)
  | [] => .resolved []
  | t :: ts => promiseAllCons (getDiskUsage t) (getDiskUsageAll ts)

end

mutual

/-- Embedding of `removeRecursive` (`index.js` lines 496-509): same
walk as `getDiskUsage` but unlinking files and symlinks; the same
`readdir` chain lacks a `.catch(reject)`. -/
def removeRecursive : FsTree → POutcome Unit
  | .file _ => .resolved ()
  | .symlink _ => .resolved ()
  | .statErr e => .rejected e
  | .special => .pending
  | .dir true _ => .pending
  | .dir false es => (removeRecursiveAll es).map (fun _ => ())

/-- Embedding of `Promise.all(files.map(file => removeRecursive(path.join(pathname, file))))`. -/
def removeRecursiveAll : List FsTree → POutcome (List Unit)
  | [] => .resolved []
  | t :: ts => promiseAllCons (removeRecursive t) (removeRecursiveAll ts)

end

mutual

/-- A tree made only of regular files, symbolic links and directories,
with no filesystem errors during the walk. -/
def cleanTree : FsTree → Bool
  | .file _ => true
  | .symlink _ => true
  | .statErr _ => false
  | .special => false
  | .dir rerr es => !rerr && cleanForest es

/-- Conjunction of `cleanTree` over every tree of a list. -/
def cleanForest : List FsTree → Bool
  | [] => true
  | t :: ts => cleanTree t && cleanForest ts

end

mutual

/-- The declarative total size of a tree: the `lstat` size of a file or
symlink, the sum over the entries of a directory (the directory's own
size not counted). -/
def sizeSpec : FsTree → Nat
  | .file s => s
  | .symlink s => s
  | .statErr _ => 0
  | .special => 0
  | .dir _ es => sizeSpecL es

/-- Sum of `sizeSpec` over a list of trees. -/
def sizeSpecL : List FsTree → Nat
  | [] => 0
  | t :: ts => sizeSpec t + sizeSpecL ts

end

/-- The value `getDataSize` resolves with. -/
structure DataSizeRes where
  ok : Bool
  size : Nat
  msg : Option String
deriving DecidableEq

/-- Embedding of `getDataSize` (`index.js` lines 516-529): await the
walk over the cache root of the requested type; on success resolve
`{ok: true, size}`, on a caught error resolve `{ok: false, size: 0,
msg}`; if the walk never settles, neither does `getDataSize`. -/
def getDataSize (cacheRoot : FsTree) : POutcome DataSizeRes :=
  match getDiskUsage cacheRoot with
  | .resolved s => .resolved ⟨true, s, none⟩
  | .rejected e => .resolved ⟨false, 0, some e⟩
  | .pending => .pending

/-- The value `clearCache` resolves with. -/
structure ClearCacheRes where
  ok : Bool
  msg : Option String
deriving DecidableEq

/-- Embedding of `clearCache` (`index.js` lines 535-545): await
`removeRecursive` over the cache root; resolve `{ok: true}` on success
and `{ok: false, msg}` on a caught error; if the walk never settles,
neither does `clearCache`. -/
def clearCache (cacheRoot : FsTree) : POutcome ClearCacheRes :=
  match removeRecursive cacheRoot with
  | .resolved _ => .resolved ⟨true, none⟩
  | .rejected e => .resolved ⟨false, some e⟩
  | .pending => .pending
/-! ## Lyric assembly (C9)

`getMusicLyric` (`index.js` lines 366-403) parses the original and
translated lyric with `Lrc.parse` from the external `lrc-kit` library,
sorts both with the `MusicLyric.byTimestamp` comparator, and aligns the
translation against the original by a two-index merge loop.  `Lrc.parse`
is third-party code and is taken as a parameter; timestamps are
modelled as integers (only their ordering matters here).  JS
`Array.prototype.sort` with the numeric comparator `a.timestamp -
b.timestamp` produces a list sorted non-decreasingly by timestamp;
it is modelled by insertion sort over the same order. -/

/-- One parsed lyric line: timestamp, content and the translation slot
that the merge loop fills in. -/
structure LrcLine where
  timestamp : Int
  content : String
  trans : Option String
deriving DecidableEq

/-- The result of `Lrc.parse`: metadata (`info`) and timestamped
lines. -/
structure ParsedLrc where
  info : List (String × String)
  lyrics : List LrcLine
deriving DecidableEq

/-- The `/song/lyric` eapi response, reduced to the fields
`getMusicLyric` reads: `lrc.lyric` and `tlyric.lyric` are `none` when
the field (or its wrapper object) is absent. -/
structure LyricResp where
  lrc : Option String
  tlyric : Option String
  lyricUser : Option String
  transUser : Option String
deriving DecidableEq

/-- JS truthiness of `x && x.lyric` for an optional lyric string:
present and non-empty. -/
def jsTruthy : Option String → Bool
  | some s => s != ""
  | none => false

/-- The `MusicLyric.byTimestamp` comparator (`index.js` lines 356-360),
as the order it sorts by. -/
def byTs (a b : LrcLine) : Prop := a.timestamp ≤ b.timestamp

instance : DecidableRel byTs :=
  fun a b => inferInstanceAs (Decidable (a.timestamp ≤ b.timestamp))

instance : IsTotal LrcLine byTs :=
  ⟨fun a b => Int.le_total a.timestamp b.timestamp⟩

instance : IsTrans LrcLine byTs :=
  ⟨fun _ _ _ hab hbc => Int.le_trans hab hbc⟩

/-- Embedding of `lyrics.sort(MusicLyric.byTimestamp)`: JS sort with a numeric
comparator, modelled as a sort by the comparator's order. -/
def sortByTimestamp (ls : List LrcLine) : List LrcLine :=
  List.insertionSort byTs ls

/-- The merge loop of `getMusicLyric` (`index.js` lines 388-399) with
explicit fuel (one unit per loop iteration; the loop runs at most
`i + j` times): walk both sorted lists; on equal timestamps copy the
translation text into the original line and advance both indices,
otherwise advance the index of the smaller timestamp. -/
def mergeTransFuel : Nat → List LrcLine → List LrcLine → List LrcLine
  | 0, ls, _ => ls
  | _ + 1, [], _ => []
  | _ + 1, l :: ls, [] => l :: ls
  | fuel + 1, l :: ls, t :: ts =>
    if l.timestamp = t.timestamp then
      { l with trans := some t.content } :: mergeTransFuel fuel ls ts
    else if l.timestamp < t.timestamp then
      l :: mergeTransFuel fuel ls (t :: ts)
    else
      mergeTransFuel fuel (l :: ls) ts

/-- The merge loop with enough fuel for every iteration. -/
def mergeTrans (ls ts : List LrcLine) : List LrcLine :=
  mergeTransFuel (ls.length + ts.length) ls ts

/-- The `mlrc` object built when a translated lyric is present. -/
structure Mlrc where
  info : List (String × String)
  transInfo : List (String × String)
  lyrics : List LrcLine
deriving DecidableEq

/-- The value `getMusicLyric` resolves with. -/
structure MusicLyricRes where
  lrc : Option ParsedLrc
  txtLyric : Option String
  lyricUser : Option String
  transUser : Option String
  mlrc : Option Mlrc
deriving DecidableEq

/-- The fresh `result = {}` object. -/
def emptyLyricRes : MusicLyricRes := ⟨none, none, none, none, none⟩

/-- The TypeError raised when `result.lrc.info` is dereferenced while
`result.lrc` is `undefined`. -/
def lrcUndefinedTypeError : String :=
  "TypeError: Cannot read properties of undefined (reading info)"

/-- Embedding of `getMusicLyric` (`index.js` lines 366-403): build
`result.lrc`/`result.txtLyric` from the original lyric when present;
when a translated lyric is present, parse and sort it and build `mlrc`
from `result.lrc.info` — which throws when `result.lrc` was never
set. -/
def getMusicLyric (parse : String → ParsedLrc) (tmp : LyricResp) :
    Except String MusicLyricRes :=
  let result1 : MusicLyricRes :=
    if jsTruthy tmp.lrc then
      let lrc := parse (tmp.lrc.getD "")
      if lrc.lyrics.length > 0 then
        { lrc := some { lrc with lyrics := sortByTimestamp lrc.lyrics },
          txtLyric := none, lyricUser := tmp.lyricUser, transUser := none, mlrc := none }
      else
        { lrc := none, txtLyric := tmp.lrc, lyricUser := tmp.lyricUser,
          transUser := none, mlrc := none }
    else emptyLyricRes
  if jsTruthy tmp.tlyric then
    match result1.lrc with
    | none => .error lrcUndefinedTypeError
    | some lrc0 =>
      let tlrc0 := parse (tmp.tlyric.getD "")
      let tlrc : ParsedLrc := { tlrc0 with lyrics := sortByTimestamp tlrc0.lyrics }
      .ok { result1 with
        transUser := tmp.transUser,
        mlrc := some { info := lrc0.info, transInfo := tlrc.info,
                       lyrics := mergeTrans lrc0.lyrics tlrc.lyrics } }
  else .ok result1

/-- The `lrc.lyrics` list of a successful `getMusicLyric` result
(`[]` when absent or on error). -/
def okLrcLyrics : Except String MusicLyricRes → List LrcLine
  | .ok res => (res.lrc.map (fun l => l.lyrics)).getD []
  | .error _ => []

/-- The `mlrc.lyrics` list of a successful `getMusicLyric` result
(`[]` when absent or on error). -/
def okMlrcLyrics : Except String MusicLyricRes → List LrcLine
  | .ok res => (res.mlrc.map (fun m => m.lyrics)).getD []
  | .error _ => []

/-- Whether a call returned normally (`Except.ok`). -/
def exceptOk : Except ε α → Bool
  | .ok _ => true
  | .error _ => false


/-! ## The eapi crypto cycle (C2)

The crypto codec is not under `src/`; it is modelled from the spec
(section 4.1, ENCRYPTED variant): build a signature string from the
path, a fixed constant, the JSON body and an empty token; hash it;
concatenate `path-body-digest` with the fixed separator; encrypt the
concatenation with a symmetric block cipher in electronic-codebook mode
using a fixed key; decoding reverses the same cipher with the same
fixed key.  Bytes are naturals; a message is a byte list.  The block
cipher itself (AES with the fixed eapi key) is taken as a pair of
functions `E`/`D` on 16-byte blocks, assumed mutually inverse and
length-preserving — exactly the property of a block cipher under a
fixed key; ECB mode, PKCS#7 padding and the signature layer are
modelled concretely.  The params value is represented by its JSON
serialization (the "JSON body" the spec feeds into the codec). -/

/-- A byte string. -/
abbrev Bytes := List Nat

/-- PKCS#7 padding to the 16-byte block size: append `k` copies of the
byte `k`, where `k = 16 - len % 16` (so `1 ≤ k ≤ 16`). -/
def pkcs7pad (bs : Bytes) : Bytes :=
  bs ++ List.replicate (16 - bs.length % 16) (16 - bs.length % 16)

/-- PKCS#7 unpadding: read the last byte `k` and drop the last `k`
bytes. -/
def pkcs7unpad (bs : Bytes) : Bytes :=
  bs.take (bs.length - (bs.getLast?.getD 0))

/-- Split into consecutive 16-byte blocks (fuel-driven so that it
computes by reduction; `toBlocks` supplies enough fuel). -/
def toBlocksFuel : Nat → Bytes → List Bytes
  | 0, _ => []
  | fuel + 1, bs => if bs = [] then [] else bs.take 16 :: toBlocksFuel fuel (bs.drop 16)

/-- Split a message into its 16-byte blocks. -/
def toBlocks (bs : Bytes) : List Bytes := toBlocksFuel bs.length bs

/-- ECB-mode encryption: pad, split into blocks, encrypt each block
independently with the fixed-key cipher `E`, concatenate. -/
def aesEcbEncrypt (E : Bytes → Bytes) (bs : Bytes) : Bytes :=
  ((toBlocks (pkcs7pad bs)).map E).flatten

/-- ECB-mode decryption with the fixed-key inverse cipher `D`:
split into blocks, decrypt each block, concatenate, unpad. -/
def aesEcbDecrypt (D : Bytes → Bytes) (bs : Bytes) : Bytes :=
  pkcs7unpad ((toBlocks bs).map D).flatten

/-- Modelled from the spec: the fixed `-36cd479b6b5-` separator of the
eapi `path-body-digest` concatenation. -/
def eapiSep : Bytes := [45, 51, 54, 99, 100, 52, 55, 57, 98, 54, 98, 53, 45]

/-- Modelled from the spec: the pieces of the "fixed constant" that the
signature string interleaves around the path and the JSON body (the
token is empty and contributes nothing). -/
def eapiSignConstA : Bytes := [110, 111, 98, 111, 100, 121]

/-- Second piece of the fixed signature constant. -/
def eapiSignConstB : Bytes := [117, 115, 101]

/-- Third piece of the fixed signature constant. -/
def eapiSignConstC : Bytes :=
  [109, 100, 53, 102, 111, 114, 101, 110, 99, 114, 121, 112, 116]

/-- Modelled from the spec: the signature source built from the path, a
fixed constant, the JSON body and an empty token; it is hashed by the
`digest` function. -/
def eapiSignatureSource (pathB body : Bytes) : Bytes :=
  eapiSignConstA ++ pathB ++ eapiSignConstB ++ body ++ eapiSignConstC

/-- Modelled from the spec: the `path-body-digest` plaintext
concatenation of the ENCRYPTED variant. -/
def eapiText (digest : Bytes → Bytes) (pathB body : Bytes) : Bytes :=
  pathB ++ eapiSep ++ body ++ eapiSep ++ digest (eapiSignatureSource pathB body)

/-- Modelled from the spec: the eapi encoder — the signature
concatenation encrypted in ECB mode with the fixed key. -/
def eapiEncode (E digest : Bytes → Bytes) (pathB body : Bytes) : Bytes :=
  aesEcbEncrypt E (eapiText digest pathB body)

/-- Index of the first occurrence of `sep` in a byte string. -/
def findSub (sep : Bytes) : Bytes → Option Nat
  | [] => if sep.isPrefixOf ([] : Bytes) then some 0 else none
  | b :: bs => if sep.isPrefixOf (b :: bs) then some 0
               else (findSub sep bs).map (· + 1)

/-- The segment strictly between the first two occurrences of `sep`. -/
def extractSegment (sep bs : Bytes) : Option Bytes :=
  match findSub sep bs with
  | none => none
  | some i =>
    match findSub sep (bs.drop (i + sep.length)) with
    | none => none
    | some j => some ((bs.drop (i + sep.length)).take j)

/-- Recover the JSON body from a decrypted eapi wire form: the segment
between the first two separators of `path-body-digest`. -/
def eapiDecodeBody (D : Bytes → Bytes) (wire : Bytes) : Option Bytes :=
  extractSegment eapiSep (aesEcbDecrypt D wire)

/-- Modelled from the spec: the LINUX variant encoder — the
JSON-serialized `{method, url, params}` object (represented by its
bytes) encrypted with the block cipher in electronic-codebook mode
using the distinct fixed key. -/
def linuxApiEncode (E : Bytes → Bytes) (eparams : Bytes) : Bytes :=
  aesEcbEncrypt E eparams

/-- Modelled from the spec: the LINUX variant's locally verifiable
decode layer — reversing the same fixed-key cipher. -/
def linuxApiDecode (D : Bytes → Bytes) (wire : Bytes) : Bytes :=
  aesEcbDecrypt D wire


/-! ## Theorems -/
/-! ## Theorems for C3, C5, C6, C4 -/

/-- C3: the cookie set is cleared by `logout` if and only if the logout
response's `code` field equals 200: for every response, `logout` calls
`updateCookie` with no argument (clearing all cookies) exactly when
`resp.code === 200`, returns `resp.code`, and leaves the cookie set
unchanged for every other code. -/
theorem logout_clears_cookies_iff_code_200 (resp : ApiResp) (jar : CookieSet) :
    ((logout resp jar).calledUpdateCookie = true ↔ resp.code = 200) ∧
    (logout resp jar).ret = resp.code ∧
    (resp.code = 200 → (logout resp jar).jar = updateCookie jar none) ∧
    (resp.code ≠ 200 → (logout resp jar).jar = jar) ∧
    updateCookie jar none = [] := by
  unfold logout updateCookie
  by_cases h : resp.code = 200 <;> simp [h]

/-- Witness for C3 at concrete inputs: a 200 response clears the jar,
an authentication-failure code 301 leaves it untouched. -/
theorem logout_clears_cookies_iff_code_200_witness :
    (logout ⟨200⟩ [("MUSIC_U", "t")]).jar = [] ∧
    (logout ⟨301⟩ [("MUSIC_U", "t")]).jar = [("MUSIC_U", "t")] := by
  constructor
  · have h := logout_clears_cookies_iff_code_200 ⟨200⟩ [("MUSIC_U", "t")]
    rw [h.2.2.1 rfl, h.2.2.2.2]
  · exact (logout_clears_cookies_iff_code_200 ⟨301⟩ [("MUSIC_U", "t")]).2.2.2.1 (by decide)

/-- C5 counterexample: `toString` is a quality argument outside
`{h, m, l}`, yet the source does not throw — the lookup
`QualityMap['toString']` hits the inherited, truthy
`Object.prototype.toString`, so a request is issued with `br` bound to
the inherited function. -/
theorem getMusicUrl_prototype_quality_counterexample :
    ¬("toString" = "h" ∨ "toString" = "m" ∨ "toString" = "l") ∧
    getMusicUrlW (.one 1) "toString"
      = .ok ⟨"/song/enhance/player/url", "web", [1], .inherited "toString"⟩ ∧
    getMusicUrlE (.one 1) "toString"
      = .ok ⟨"/song/enhance/player/url", "eapi", [1], .inherited "toString"⟩ ∧
    getMusicUrlL (.one 1) "toString"
      = .ok ⟨"/api/song/enhance/player/url", "linux", [1], .inherited "toString"⟩ := by
  exact ⟨by decide, rfl, rfl, rfl⟩

/-- C5 (amended): for every quality argument outside `{h, m, l}` that
is not an inherited `Object.prototype` member name, all three
functions throw without issuing any request; for an inherited member
name the lookup is truthy and a request is issued with `br` bound to
the inherited member; `h`/`m`/`l` map to `br` 320000/192000/128000;
a single non-array id is wrapped into a one-element ids list. -/
theorem getMusicUrl_quality_behavior_amended (idOrIds : IdOrIds) (q : String) (n : Nat) :
    (¬(q = "h" ∨ q = "m" ∨ q = "l") → q ∉ objectPrototypeKeys →
      getMusicUrlW idOrIds q = .error (qualityErrMsg q) ∧
      getMusicUrlE idOrIds q = .error (qualityErrMsg q) ∧
      getMusicUrlL idOrIds q = .error (qualityErrMsg q)) ∧
    (q ∈ objectPrototypeKeys →
      getMusicUrlW idOrIds q
        = .ok ⟨"/song/enhance/player/url", "web", wrapIds idOrIds, .inherited q⟩ ∧
      getMusicUrlE idOrIds q
        = .ok ⟨"/song/enhance/player/url", "eapi", wrapIds idOrIds, .inherited q⟩ ∧
      getMusicUrlL idOrIds q
        = .ok ⟨"/api/song/enhance/player/url", "linux", wrapIds idOrIds, .inherited q⟩) ∧
    getMusicUrlW idOrIds "h" = .ok ⟨"/song/enhance/player/url", "web", wrapIds idOrIds, .num 320000⟩ ∧
    getMusicUrlW idOrIds "m" = .ok ⟨"/song/enhance/player/url", "web", wrapIds idOrIds, .num 192000⟩ ∧
    getMusicUrlW idOrIds "l" = .ok ⟨"/song/enhance/player/url", "web", wrapIds idOrIds, .num 128000⟩ ∧
    getMusicUrlE idOrIds "h" = .ok ⟨"/song/enhance/player/url", "eapi", wrapIds idOrIds, .num 320000⟩ ∧
    getMusicUrlE idOrIds "m" = .ok ⟨"/song/enhance/player/url", "eapi", wrapIds idOrIds, .num 192000⟩ ∧
    getMusicUrlE idOrIds "l" = .ok ⟨"/song/enhance/player/url", "eapi", wrapIds idOrIds, .num 128000⟩ ∧
    getMusicUrlL idOrIds "h" = .ok ⟨"/api/song/enhance/player/url", "linux", wrapIds idOrIds, .num 320000⟩ ∧
    getMusicUrlL idOrIds "m" = .ok ⟨"/api/song/enhance/player/url", "linux", wrapIds idOrIds, .num 192000⟩ ∧
    getMusicUrlL idOrIds "l" = .ok ⟨"/api/song/enhance/player/url", "linux", wrapIds idOrIds, .num 128000⟩ ∧
    wrapIds (.one n) = [n] := by
  refine ⟨?_, ?_, rfl, rfl, rfl, rfl, rfl, rfl, rfl, rfl, rfl, rfl⟩
  · intro h hmem
    push_neg at h
    obtain ⟨h1, h2, h3⟩ := h
    refine ⟨?_, ?_, ?_⟩ <;>
      simp [getMusicUrlW, getMusicUrlE, getMusicUrlL, QualityMap, jsPropTruthy,
        h1, h2, h3, hmem]
  · intro hmem
    have h1 : q ≠ "h" := fun he => by subst he; exact absurd hmem (by decide)
    have h2 : q ≠ "m" := fun he => by subst he; exact absurd hmem (by decide)
    have h3 : q ≠ "l" := fun he => by subst he; exact absurd hmem (by decide)
    refine ⟨?_, ?_, ?_⟩ <;>
      simp [getMusicUrlW, getMusicUrlE, getMusicUrlL, QualityMap, jsPropTruthy,
        h1, h2, h3, hmem]

/-- Witness for the amended C5: a concrete ordinary out-of-range
quality errors, the inherited name `valueOf` goes through with the
inherited member as `br`, and a single id is wrapped. -/
theorem getMusicUrl_quality_behavior_amended_witness :
    getMusicUrlW (.one 12345) "x" = .error (qualityErrMsg "x") ∧
    getMusicUrlW (.one 12345) "valueOf"
      = .ok ⟨"/song/enhance/player/url", "web", [12345], .inherited "valueOf"⟩ ∧
    wrapIds (.one 12345) = [12345] :=
  ⟨((getMusicUrl_quality_behavior_amended (.one 12345) "x" 12345).1
      (by decide) (by decide)).1,
   ((getMusicUrl_quality_behavior_amended (.one 12345) "valueOf" 12345).2.1
      (by decide)).1,
   (getMusicUrl_quality_behavior_amended (.one 12345) "x" 12345).2.2.2.2.2.2.2.2.2.2.2⟩

/-- C6 counterexample: at id 123, quality `h`, `ignoreCache = true` and
port 6600, the query string produced by `getMusicUrlLocal` carries
`ignoreCache=true` (Node's `querystring.stringify` of the boolean
`true`), not `ignoreCache=1` as the claim states. -/
theorem getMusicUrlLocal_ignoreCache_not_one :
    (getMusicUrlLocal 6600 123 "h" true).url
      = "http://localhost:6600/music?id=123&quality=h&ignoreCache=true" ∧
    ("ignoreCache", "1") ∉ musicUrlQuery 123 "h" true := by
  exact ⟨rfl, by decide⟩

/-- C6 (amended): the URL is `http://localhost:<port>/music` with query
parameters `id` and `quality`; the query contains the key `ignoreCache`
with value `"true"` exactly when `ignoreCache` is true, and omits the
key otherwise. -/
theorem getMusicUrlLocal_query_amended (port id : Nat) (quality : String)
    (ignoreCache : Bool) :
    (getMusicUrlLocal port id quality ignoreCache).url
      = urlFormat "localhost" port "/music" (musicUrlQuery id quality ignoreCache) ∧
    ("id", toString id) ∈ musicUrlQuery id quality ignoreCache ∧
    ("quality", quality) ∈ musicUrlQuery id quality ignoreCache ∧
    (("ignoreCache", "true") ∈ musicUrlQuery id quality ignoreCache ↔ ignoreCache = true) ∧
    (ignoreCache = false →
      ∀ v, ("ignoreCache", v) ∉ musicUrlQuery id quality ignoreCache) := by
  refine ⟨rfl, ?_, ?_, ?_, ?_⟩ <;>
    cases ignoreCache <;>
      simp [musicUrlQuery, jsBoolString]

/-- Witness for the amended C6 at concrete inputs. -/
theorem getMusicUrlLocal_query_amended_witness :
    ("ignoreCache", "true") ∈ musicUrlQuery 9 "l" true ∧
    ("id", toString 9) ∈ musicUrlQuery 9 "l" false :=
  ⟨(getMusicUrlLocal_query_amended 8080 9 "l" true).2.2.2.1.mpr rfl,
   (getMusicUrlLocal_query_amended 8080 9 "l" false).2.1⟩

/-- C4: `getMusicLyricCached` fetches upstream iff `ignoreCache` is true
or `lyricCache.has(id.toString())` is false; on a cache hit with
`ignoreCache` false it returns the cached entry and makes no upstream
request; after every fresh fetch it saves the fetched result under key
`id.toString()`. -/
theorem getMusicLyricCached_cache_behavior {α : Type} (c : LyricCache α)
    (id : Nat) (ignoreCache : Bool) (upstream : α) :
    ((getMusicLyricCached c id ignoreCache upstream).fetched
       = (ignoreCache || !cacheHas c (lyricKey id))) ∧
    (∀ v, c.entries.lookup (lyricKey id) = some v → ignoreCache = false →
      getMusicLyricCached c id ignoreCache upstream = ⟨v, c, false⟩) ∧
    ((getMusicLyricCached c id ignoreCache upstream).fetched = true →
      getMusicLyricCached c id ignoreCache upstream
        = ⟨upstream, cacheSave c (lyricKey id) upstream, true⟩) := by
  unfold getMusicLyricCached cacheHas
  cases h : c.entries.lookup (lyricKey id) <;> cases ignoreCache <;> simp [h]

/-- Witness for C4: a concrete hit (id 7 cached, `ignoreCache = false`)
is served from the cache, and a concrete bypass (`ignoreCache = true`)
fetches and saves. -/
theorem getMusicLyricCached_cache_behavior_witness :
    getMusicLyricCached (⟨[("7", 42)]⟩ : LyricCache Nat) 7 false 0 = ⟨42, ⟨[("7", 42)]⟩, false⟩ ∧
    getMusicLyricCached (⟨[("7", 42)]⟩ : LyricCache Nat) 7 true 5
      = ⟨5, cacheSave ⟨[("7", 42)]⟩ (lyricKey 7) 5, true⟩ :=
  ⟨(getMusicLyricCached_cache_behavior ⟨[("7", 42)]⟩ 7 false 42).2.1 42 (by decide) rfl,
   (getMusicLyricCached_cache_behavior ⟨[("7", 42)]⟩ 7 true 5).2.2 (by decide)⟩

/-! ## Theorems for C1 and C7 -/

/-- Helper: once a fetch for `k` is in flight, further requests for `k`
only attach as waiters: `inflight` and `started` are unchanged and each
request adds one waiter for `k`. -/
theorem sfHandleAll_replicate_of_inflight (m : Nat) (k : String)
    (s : SingleFlightState) (hk : k ∈ s.inflight) :
    (sfHandleAll s (List.replicate m k)).inflight = s.inflight ∧
    (sfHandleAll s (List.replicate m k)).started = s.started ∧
    (sfHandleAll s (List.replicate m k)).waiters.count k = s.waiters.count k + m := by
  induction m generalizing s with
  | zero => simp [sfHandleAll]
  | succ m ih =>
    rw [List.replicate_succ]
    have hstep : sfHandleRequest s k = { s with waiters := k :: s.waiters } := by
      simp [sfHandleRequest, hk]
    have hall : sfHandleAll s (k :: List.replicate m k)
        = sfHandleAll { s with waiters := k :: s.waiters } (List.replicate m k) := by
      simp [sfHandleAll, hstep]
    rw [hall]
    have := ih { s with waiters := k :: s.waiters } hk
    refine ⟨this.1, this.2.1, ?_⟩
    rw [this.2.2]
    simp [List.count_cons]
    omega

/-- C1: when `n ≥ 1` concurrent media requests for the same cache key
`k` are issued (each performing its atomic check-and-insert) before any
fetch for `k` completes, exactly one upstream fetch for `k` is started;
the other `n - 1` requests attach to that in-flight fetch as waiters. -/
theorem singleFlight_one_fetch (n : Nat) (k : String) (h : 1 ≤ n) :
    (sfHandleAll sfInit (List.replicate n k)).started.count k = 1 ∧
    (sfHandleAll sfInit (List.replicate n k)).waiters.count k = n - 1 := by
  obtain ⟨m, rfl⟩ : ∃ m, n = m + 1 := ⟨n - 1, by omega⟩
  rw [List.replicate_succ]
  have hstep : sfHandleRequest sfInit k = ⟨[k], [k], []⟩ := by
    simp [sfHandleRequest, sfInit]
  have hall : sfHandleAll sfInit (k :: List.replicate m k)
      = sfHandleAll ⟨[k], [k], []⟩ (List.replicate m k) := by
    simp [sfHandleAll, hstep]
  rw [hall]
  have hrest := sfHandleAll_replicate_of_inflight m k ⟨[k], [k], []⟩ (by simp)
  rw [hrest.2.1, hrest.2.2]
  simp

/-- Witness for C1 at a concrete key and request count. -/
theorem singleFlight_one_fetch_witness :
    (sfHandleAll sfInit (List.replicate 3 "12345-h")).started.count "12345-h" = 1 ∧
    (sfHandleAll sfInit (List.replicate 3 "12345-h")).waiters.count "12345-h" = 2 :=
  singleFlight_one_fetch 3 "12345-h" (by decide)

/-- Every atomic event preserves the invariant: staging only creates a
temporary-path file, the commit rename puts a fully-written file at the
final path, and unlinking never adds files. -/
theorem cacheStep_preserves_inv (fs : CacheFs) (e : CacheEv) (h : cacheInv fs) :
    cacheInv (cacheStep fs e) := by
  cases e with
  | stage k =>
    intro k2 b hmem
    rcases List.mem_cons.mp hmem with heq | hmem2
    · exact absurd heq (by simp)
    · exact h k2 b hmem2
  | commit k =>
    intro k2 b hmem
    rcases List.mem_cons.mp hmem with heq | hmem2
    · exact (congrArg Prod.snd heq : b = true)
    · exact h k2 b (List.mem_of_mem_filter hmem2)
  | unlink p =>
    intro k2 b hmem
    exact h k2 b (List.mem_of_mem_filter hmem)

/-- Helper: the invariant holds in every state reachable by a trace. -/
theorem cacheFoldl_inv (evs : List CacheEv) (fs : CacheFs) (h : cacheInv fs) :
    cacheInv (evs.foldl cacheStep fs) := by
  induction evs generalizing fs with
  | nil => exact h
  | cons e evs ih => exact ih (cacheStep fs e) (cacheStep_preserves_inv fs e h)

/-- C7: in every interleaving of the deletion walk with concurrent
in-flight saves (every trace of atomic stage/commit/unlink events from
the empty cache root), any file present under an entry's final path is
fully written — so an `unlink` step of `removeRecursive`/`clearCache`
only ever removes fully-written entries; staged files of in-flight
saves live at temporary paths and are not entries. -/
theorem removeRecursive_only_removes_complete_entries (evs : List CacheEv) (k : String) :
    (∀ b, (CachePath.final k, b) ∈ cacheExec evs → b = true) ∧
    (∀ f ∈ unlinkRemoves (cacheExec evs) (CachePath.final k), f.2 = true) := by
  have hinv : cacheInv (cacheExec evs) :=
    cacheFoldl_inv evs [] (by intro k b h; exact absurd h (List.not_mem_nil _))
  refine ⟨fun b => hinv k b, ?_⟩
  intro f hf
  have hmem := List.mem_of_mem_filter hf
  have hpath : f.1 = CachePath.final k := by
    have := List.mem_filter.mp hf
    exact of_decide_eq_true this.2
  have : (CachePath.final k, f.2) ∈ cacheExec evs := by
    rw [← hpath]
    exact hmem
  exact hinv k f.2 this

/-- Witness for C7: after a concrete stage-then-commit trace, no
partially-written file sits at the entry's final path. -/
theorem removeRecursive_only_removes_complete_entries_witness :
    (CachePath.final "a", false) ∉ cacheExec [CacheEv.stage "a", CacheEv.commit "a"] :=
  fun hmem => by
    simpa using
      (removeRecursive_only_removes_complete_entries
        [CacheEv.stage "a", CacheEv.commit "a"] "a").1 false hmem


/-! ## Theorems for C8 and C10 -/

/-- Folding `sizes.reduce((a, b) => a + b, 0)` over the mapped sizes equals the
declarative sum. -/
theorem foldl_add_sizeSpec (es : List FsTree) (a : Nat) :
    (es.map sizeSpec).foldl (· + ·) a = a + sizeSpecL es := by
  induction es generalizing a with
  | nil => simp [sizeSpecL]
  | cons t ts ih => simp [sizeSpecL, ih]; omega

/-- A member of a clean forest is a clean tree. -/
theorem cleanForest_mem {ts : List FsTree} {t : FsTree}
    (h : cleanForest ts = true) (hm : t ∈ ts) : cleanTree t = true := by
  induction ts with
  | nil => exact absurd hm (List.not_mem_nil t)
  | cons u us ih =>
    rw [cleanForest, Bool.and_eq_true] at h
    rcases List.mem_cons.mp hm with rfl | hm2
    · exact h.1
    · exact ih h.2 hm2

/-- On trees of bounded size made only of files, symlinks and
directories with no walk errors, `getDiskUsage` resolves with the
declarative total size (and likewise for lists of entries). -/
theorem getDiskUsage_clean_bounded (n : Nat) :
    (∀ t : FsTree, sizeOf t ≤ n → cleanTree t = true →
       getDiskUsage t = .resolved (sizeSpec t)) ∧
    (∀ ts : List FsTree, sizeOf ts ≤ n → cleanForest ts = true →
       getDiskUsageAll ts = .resolved (ts.map sizeSpec)) := by
  induction n with
  | zero =>
    constructor
    · intro t ht _; exfalso; cases t <;> simp at ht
    · intro ts hts _; exfalso; cases ts <;> simp at hts
  | succ n ih =>
    obtain ⟨ihT, ihL⟩ := ih
    constructor
    · intro t ht hc
      cases t with
      | file s => rfl
      | symlink s => rfl
      | statErr e => simp [cleanTree] at hc
      | special => simp [cleanTree] at hc
      | dir rerr es =>
        rw [cleanTree, Bool.and_eq_true, Bool.not_eq_true'] at hc
        obtain ⟨h1, h2⟩ := hc
        subst h1
        have hsz : sizeOf es ≤ n := by
          have h3 : 1 + sizeOf false + sizeOf es ≤ n + 1 := by
            simpa using ht
          omega
        have hrec := ihL es hsz h2
        show (getDiskUsageAll es).map (fun sizes => sizes.foldl (· + ·) 0)
          = .resolved (sizeSpec (.dir false es))
        rw [hrec]
        simp [POutcome.map, sizeSpec, foldl_add_sizeSpec]
    · intro ts hts hc
      cases ts with
      | nil => rfl
      | cons t ts2 =>
        rw [cleanForest, Bool.and_eq_true] at hc
        have h1 : sizeOf t ≤ n := by
          have h3 : 1 + sizeOf t + sizeOf ts2 ≤ n + 1 := by simpa using hts
          omega
        have h2 : sizeOf ts2 ≤ n := by
          have h3 : 1 + sizeOf t + sizeOf ts2 ≤ n + 1 := by simpa using hts
          omega
        show promiseAllCons (getDiskUsage t) (getDiskUsageAll ts2)
          = .resolved ((t :: ts2).map sizeSpec)
        rw [ihT t h1 hc.1, ihL ts2 h2 hc.2]
        rfl

/-- On a clean tree, `getDiskUsage` resolves with the declarative
total size. -/
theorem getDiskUsage_clean (t : FsTree) (h : cleanTree t = true) :
    getDiskUsage t = .resolved (sizeSpec t) :=
  (getDiskUsage_clean_bounded (sizeOf t)).1 t le_rfl h

/-- C8: on filesystem trees consisting only of regular files, symbolic
links and directories, `getDiskUsage` resolves with the `lstat` size
for a file or symlink and with the sum of `getDiskUsage` over the
entries for a directory (the directory's own size not counted), and
`getDataSize` reports exactly this total for the cache root. -/
theorem getDiskUsage_total_size (s : Nat) (es : List FsTree) (root : FsTree)
    (hes : cleanForest es = true) (hroot : cleanTree root = true) :
    getDiskUsage (.file s) = .resolved s ∧
    getDiskUsage (.symlink s) = .resolved s ∧
    getDiskUsage (.dir false es) = .resolved (sizeSpecL es) ∧
    (∀ t ∈ es, getDiskUsage t = .resolved (sizeSpec t)) ∧
    sizeSpec (.dir false es) = sizeSpecL es ∧
    getDataSize root = .resolved ⟨true, sizeSpec root, none⟩ := by
  refine ⟨rfl, rfl, ?_, ?_, rfl, ?_⟩
  · have h := getDiskUsage_clean (.dir false es) (by rw [cleanTree]; simp [hes])
    rw [h]
    rfl
  · intro t htm
    exact getDiskUsage_clean t (cleanForest_mem hes htm)
  · rw [getDataSize, getDiskUsage_clean root hroot]

/-- Witness for C8 at a concrete two-level tree. -/
theorem getDiskUsage_total_size_witness :
    getDiskUsage (.dir false [.file 1, .dir false [.symlink 2]])
      = .resolved (sizeSpecL [.file 1, .dir false [.symlink 2]]) ∧
    getDataSize (.dir false [.file 7, .file 8])
      = .resolved ⟨true, sizeSpec (.dir false [.file 7, .file 8]), none⟩ :=
  ⟨(getDiskUsage_total_size 0 [.file 1, .dir false [.symlink 2]]
      (.dir false [.file 7, .file 8]) (by decide) (by decide)).2.2.1,
   (getDiskUsage_total_size 0 [.file 1, .dir false [.symlink 2]]
      (.dir false [.file 7, .file 8]) (by decide) (by decide)).2.2.2.2.2⟩

/-- C10: `getDataSize` and `clearCache` never reject; every walk error
that surfaces as a rejection is caught and turned into a resolved
`{ok: false, ...}` value; but a `readdir` failure (whose promise chain
lacks a `.catch(reject)`) leaves the walk — and hence `getDataSize` and
`clearCache` — pending forever instead of resolving `{ok: false}`,
while an `lstat` failure resolves as the claim describes. -/
theorem getDataSize_clearCache_settlement :
    (∀ (t : FsTree) (e : String), getDataSize t ≠ .rejected e) ∧
    (∀ (t : FsTree) (e : String), clearCache t ≠ .rejected e) ∧
    (∀ (t : FsTree) (s : Nat), getDiskUsage t = .resolved s →
       getDataSize t = .resolved ⟨true, s, none⟩) ∧
    (∀ (t : FsTree) (e : String), getDiskUsage t = .rejected e →
       getDataSize t = .resolved ⟨false, 0, some e⟩) ∧
    (∀ t : FsTree, removeRecursive t = .resolved () →
       clearCache t = .resolved ⟨true, none⟩) ∧
    (∀ (t : FsTree) (e : String), removeRecursive t = .rejected e →
       clearCache t = .resolved ⟨false, some e⟩) ∧
    getDataSize (.dir true []) = .pending ∧
    clearCache (.dir true []) = .pending ∧
    getDataSize (.dir false [.statErr "EACCES"]) = .resolved ⟨false, 0, some "EACCES"⟩ ∧
    clearCache (.dir false [.statErr "EACCES"]) = .resolved ⟨false, some "EACCES"⟩ := by
  refine ⟨?_, ?_, ?_, ?_, ?_, ?_, rfl, rfl, rfl, rfl⟩
  · intro t e h
    cases hgd : getDiskUsage t <;> simp [getDataSize, hgd] at h
  · intro t e h
    cases hrr : removeRecursive t <;> simp [clearCache, hrr] at h
  · intro t s h; rw [getDataSize, h]
  · intro t e h; rw [getDataSize, h]
  · intro t h; rw [clearCache, h]
  · intro t e h; rw [clearCache, h]

/-- Witness for C10's quantified parts at a concrete tree. -/
theorem getDataSize_clearCache_settlement_witness :
    getDataSize (.file 5) = .resolved ⟨true, 5, none⟩ ∧
    clearCache (.statErr "EPERM") = .resolved ⟨false, some "EPERM"⟩ :=
  ⟨getDataSize_clearCache_settlement.2.2.1 (.file 5) 5 rfl,
   getDataSize_clearCache_settlement.2.2.2.2.2.1 (.statErr "EPERM") "EPERM" rfl⟩

/-- The merge loop only fills translation slots: the timestamps of the
result are exactly those of the original list. -/
theorem mergeTransFuel_map_timestamp (fuel : Nat) (ls ts : List LrcLine) :
    (mergeTransFuel fuel ls ts).map (fun l => l.timestamp)
      = ls.map (fun l => l.timestamp) := by
  induction fuel generalizing ls ts with
  | zero => rfl
  | succ fuel ih =>
    cases ls with
    | nil => rfl
    | cons l ls2 =>
      cases ts with
      | nil => rfl
      | cons t ts2 =>
        by_cases h1 : l.timestamp = t.timestamp
        · simp [mergeTransFuel, h1, ih]
        · by_cases h2 : l.timestamp < t.timestamp
          · simp [mergeTransFuel, h1, h2, ih]
          · simp [mergeTransFuel, h1, h2, ih]

/-- The merge loop preserves sortedness by timestamp. -/
theorem mergeTrans_sorted (ls ts : List LrcLine) (h : List.Sorted byTs ls) :
    List.Sorted byTs (mergeTrans ls ts) := by
  have hmap := mergeTransFuel_map_timestamp (ls.length + ts.length) ls ts
  have h1 : List.Pairwise (fun a b : Int => a ≤ b)
      ((mergeTransFuel (ls.length + ts.length) ls ts).map (fun l => l.timestamp)) := by
    rw [hmap]
    exact List.pairwise_map.mpr h
  have h2 : List.Pairwise (fun a b : LrcLine => a.timestamp ≤ b.timestamp)
      (mergeTransFuel (ls.length + ts.length) ls ts) := List.pairwise_map.mp h1
  exact h2

/-- The sorted original lyrics are sorted. -/
theorem sortByTimestamp_sorted (ls : List LrcLine) :
    List.Sorted byTs (sortByTimestamp ls) :=
  List.sorted_insertionSort byTs ls

/-- C9: if the response has a non-empty translated lyric while the
original lyric is absent, empty, or parses to zero timestamped lines,
`getMusicLyric` throws (dereferencing `result.lrc.info` with
`result.lrc` undefined) instead of returning a result; whenever both
lyrics are present and the original parses to at least one line, the
returned `lrc.lyrics` and `mlrc.lyrics` are sorted non-decreasing by
timestamp. -/
theorem getMusicLyric_translation_safety (parse : String → ParsedLrc)
    (tmp : LyricResp) :
    (jsTruthy tmp.tlyric = true →
      (jsTruthy tmp.lrc = false ∨ (parse (tmp.lrc.getD "")).lyrics = []) →
      getMusicLyric parse tmp = .error lrcUndefinedTypeError) ∧
    (jsTruthy tmp.lrc = true → jsTruthy tmp.tlyric = true →
      (parse (tmp.lrc.getD "")).lyrics ≠ [] →
      exceptOk (getMusicLyric parse tmp) = true ∧
      okLrcLyrics (getMusicLyric parse tmp)
        = sortByTimestamp (parse (tmp.lrc.getD "")).lyrics ∧
      List.Sorted byTs (okLrcLyrics (getMusicLyric parse tmp)) ∧
      okMlrcLyrics (getMusicLyric parse tmp)
        = mergeTrans (sortByTimestamp (parse (tmp.lrc.getD "")).lyrics)
            (sortByTimestamp (parse (tmp.tlyric.getD "")).lyrics) ∧
      List.Sorted byTs (okMlrcLyrics (getMusicLyric parse tmp))) := by
  constructor
  · intro ht hor
    unfold getMusicLyric
    rcases hor with hf | hemp
    · simp [hf, ht, emptyLyricRes]
    · by_cases hl : jsTruthy tmp.lrc
      · simp [hl, ht, hemp]
      · simp [hl, ht, emptyLyricRes]
  · intro hl ht hne
    have hpos : 0 < (parse (tmp.lrc.getD "")).lyrics.length :=
      List.length_pos.mpr hne
    have e0 : exceptOk (getMusicLyric parse tmp) = true := by
      simp [getMusicLyric, exceptOk, hl, ht, hpos]
    have e1 : okLrcLyrics (getMusicLyric parse tmp)
        = sortByTimestamp (parse (tmp.lrc.getD "")).lyrics := by
      simp [getMusicLyric, okLrcLyrics, hl, ht, hpos]
    have e2 : okMlrcLyrics (getMusicLyric parse tmp)
        = mergeTrans (sortByTimestamp (parse (tmp.lrc.getD "")).lyrics)
            (sortByTimestamp (parse (tmp.tlyric.getD "")).lyrics) := by
      simp [getMusicLyric, okMlrcLyrics, hl, ht, hpos]
    refine ⟨e0, e1, ?_, e2, ?_⟩
    · rw [e1]; exact sortByTimestamp_sorted _
    · rw [e2]; exact mergeTrans_sorted _ _ (sortByTimestamp_sorted _)

/-- Witness for C9 at concrete inputs: a response with only a
translated lyric throws, and a well-formed response yields sorted
lyric lists. -/
theorem getMusicLyric_translation_safety_witness :
    getMusicLyric (fun _ => ⟨[], []⟩) ⟨none, some "t", none, none⟩
      = .error lrcUndefinedTypeError ∧
    List.Sorted byTs (okMlrcLyrics (getMusicLyric
      (fun s => if s = "A" then ⟨[], [⟨20, "b", none⟩, ⟨10, "a", none⟩]⟩
                else ⟨[], [⟨10, "x", none⟩]⟩)
      ⟨some "A", some "B", none, none⟩)) :=
  ⟨(getMusicLyric_translation_safety (fun _ => ⟨[], []⟩)
      ⟨none, some "t", none, none⟩).1 (by decide) (Or.inl (by decide)),
   ((getMusicLyric_translation_safety
      (fun s => if s = "A" then ⟨[], [⟨20, "b", none⟩, ⟨10, "a", none⟩]⟩
                else ⟨[], [⟨10, "x", none⟩]⟩)
      ⟨some "A", some "B", none, none⟩).2 (by decide) (by decide)
      (by decide)).2.2.2.2⟩
/-- Concatenating the blocks gives back the message. -/
theorem toBlocksFuel_flatten (fuel : Nat) (bs : Bytes) (h : bs.length ≤ fuel) :
    (toBlocksFuel fuel bs).flatten = bs := by
  induction fuel generalizing bs with
  | zero =>
    have hbs : bs = [] := List.eq_nil_of_length_eq_zero (Nat.le_zero.mp h)
    simp [hbs, toBlocksFuel]
  | succ fuel ih =>
    by_cases hbs : bs = []
    · simp [hbs, toBlocksFuel]
    · simp only [toBlocksFuel, if_neg hbs, List.flatten_cons]
      rw [ih (bs.drop 16) (by rw [List.length_drop]; omega)]
      exact List.take_append_drop 16 bs

/-- When the message length is a multiple of 16, every block has
length 16. -/
theorem toBlocksFuel_length (fuel : Nat) (bs : Bytes) (h : bs.length ≤ fuel)
    (hdvd : 16 ∣ bs.length) : ∀ b ∈ toBlocksFuel fuel bs, b.length = 16 := by
  induction fuel generalizing bs with
  | zero =>
    have hbs : bs = [] := List.eq_nil_of_length_eq_zero (Nat.le_zero.mp h)
    simp [hbs, toBlocksFuel]
  | succ fuel ih =>
    by_cases hbs : bs = []
    · simp [hbs, toBlocksFuel]
    · intro b hb
      have hlen : 16 ≤ bs.length :=
        Nat.le_of_dvd (List.length_pos.mpr hbs) hdvd
      simp only [toBlocksFuel, if_neg hbs] at hb
      rcases List.mem_cons.mp hb with rfl | hb2
      · rw [List.length_take]; omega
      · exact ih (bs.drop 16) (by rw [List.length_drop]; omega)
          (by rw [List.length_drop]; exact Nat.dvd_sub' hdvd (by norm_num)) b hb2

/-- Splitting with `toBlocks` then flattening is the identity. -/
theorem toBlocks_flatten (bs : Bytes) : (toBlocks bs).flatten = bs :=
  toBlocksFuel_flatten bs.length bs le_rfl

/-- Splitting the concatenation of 16-byte blocks recovers the
blocks. -/
theorem toBlocks_of_uniform (l : List Bytes) (h : ∀ b ∈ l, b.length = 16) :
    toBlocks l.flatten = l := by
  suffices hgen : ∀ (fuel : Nat) (l : List Bytes), l.flatten.length ≤ fuel →
      (∀ b ∈ l, b.length = 16) → toBlocksFuel fuel l.flatten = l from
    hgen l.flatten.length l le_rfl h
  intro fuel
  induction fuel with
  | zero =>
    intro l hlen hu
    cases l with
    | nil => rfl
    | cons b l2 =>
      exfalso
      have hb : b.length = 16 := hu b (List.mem_cons_self b l2)
      rw [List.flatten_cons, List.length_append] at hlen
      omega
  | succ fuel ih =>
    intro l hlen hu
    cases l with
    | nil => rfl
    | cons b l2 =>
      have hb : b.length = 16 := hu b (List.mem_cons_self b l2)
      have hne : (b :: l2).flatten ≠ [] := by
        rw [List.flatten_cons]
        intro he
        have := (List.append_eq_nil.mp he).1
        rw [this] at hb
        simp at hb
      rw [List.flatten_cons] at hne ⊢
      simp only [toBlocksFuel, if_neg hne]
      congr 1
      · rw [← hb]
        exact List.take_left b l2.flatten
      · rw [← hb, List.drop_left]
        refine ih l2 ?_ (fun x hx => hu x (List.mem_cons_of_mem b hx))
        rw [List.flatten_cons, List.length_append] at hlen
        omega

/-- The padded message length is a multiple of the block size. -/
theorem pkcs7pad_length_dvd (bs : Bytes) : 16 ∣ (pkcs7pad bs).length := by
  unfold pkcs7pad
  rw [List.length_append, List.length_replicate]
  omega

/-- PKCS#7 unpadding undoes PKCS#7 padding. -/
theorem pkcs7_unpad_pad (bs : Bytes) : pkcs7unpad (pkcs7pad bs) = bs := by
  unfold pkcs7pad pkcs7unpad
  set k := 16 - bs.length % 16 with hk
  have hk1 : 1 ≤ k := by omega
  have hrep : List.replicate k k = List.replicate (k - 1) k ++ [k] := by
    calc List.replicate k k = List.replicate (k - 1 + 1) k := by
          rw [Nat.sub_add_cancel hk1]
      _ = List.replicate (k - 1) k ++ [k] := List.replicate_succ' (k - 1) k
  have hlast : (bs ++ List.replicate k k).getLast? = some k := by
    rw [hrep, ← List.append_assoc]
    exact List.getLast?_concat _
  rw [hlast]
  simp only [Option.getD_some, List.length_append, List.length_replicate]
  rw [Nat.add_sub_cancel]
  exact List.take_left bs _

/-- The ECB encrypt/decrypt cycle with the fixed key is exactly
invertible: `D` undoing `E` on 16-byte blocks lifts to whole
messages. -/
theorem aesEcb_roundtrip (E D : Bytes → Bytes)
    (hLen : ∀ b, b.length = 16 → (E b).length = 16)
    (hInv : ∀ b, b.length = 16 → D (E b) = b) (bs : Bytes) :
    aesEcbDecrypt D (aesEcbEncrypt E bs) = bs := by
  unfold aesEcbEncrypt aesEcbDecrypt
  have hblocks : ∀ b ∈ toBlocks (pkcs7pad bs), b.length = 16 :=
    toBlocksFuel_length _ _ le_rfl (pkcs7pad_length_dvd bs)
  have hmap : ∀ b ∈ (toBlocks (pkcs7pad bs)).map E, b.length = 16 := by
    intro b hbm
    obtain ⟨a, ha, rfl⟩ := List.mem_map.mp hbm
    exact hLen a (hblocks a ha)
  rw [toBlocks_of_uniform _ hmap, List.map_map]
  have hDE : (toBlocks (pkcs7pad bs)).map (D ∘ E) = toBlocks (pkcs7pad bs) := by
    have hpt : ∀ a ∈ toBlocks (pkcs7pad bs), (D ∘ E) a = id a :=
      fun a ha => hInv a (hblocks a ha)
    rw [List.map_congr_left hpt, List.map_id]
  rw [hDE, toBlocks_flatten]
  exact pkcs7_unpad_pad bs

/-- A list is a `isPrefixOf` of itself followed by anything. -/
theorem isPrefixOf_append_self (l r : Bytes) : l.isPrefixOf (l ++ r) = true := by
  induction l with
  | nil => rw [List.nil_append]; cases r <;> rfl
  | cons a l ih => simp [List.isPrefixOf, ih]

/-- The function `findSub` finds the separator at position 0 when the string starts
with it. -/
theorem findSub_append_self (sep tail : Bytes) (hne : sep ≠ []) :
    findSub sep (sep ++ tail) = some 0 := by
  cases sep with
  | nil => exact absurd rfl hne
  | cons a as =>
    rw [List.cons_append, findSub, if_pos]
    exact isPrefixOf_append_self (a :: as) tail

/-- Bridging the boolean `isPrefixOf` test with the `IsPrefix`
relation. -/
theorem isPrefixOf_eq_true (l₁ l₂ : Bytes) : l₁.isPrefixOf l₂ = true ↔ l₁ <+: l₂ := by
  induction l₁ generalizing l₂ with
  | nil =>
    constructor
    · intro _; exact List.nil_prefix
    · intro _; cases l₂ <;> rfl
  | cons a as ih =>
    cases l₂ with
    | nil =>
      constructor
      · intro hc; exact absurd hc (by simp [List.isPrefixOf])
      · intro hc; exact absurd (List.prefix_nil.mp hc) (by simp)
    | cons b bs =>
      rw [List.isPrefixOf, Bool.and_eq_true, beq_iff_eq, List.cons_prefix_cons, ih]

/-- The function `findSub` locates the first separator occurrence right
after a prefix `pre` when the separator does not occur in
`pre ++ sep.dropLast` — i.e. neither inside `pre` nor straddling the
boundary into the following separator. -/
theorem findSub_first_at (sep : Bytes) (hne : sep ≠ []) :
    ∀ (pre rest : Bytes), ¬ sep <:+: (pre ++ sep.dropLast) →
      findSub sep (pre ++ (sep ++ rest)) = some pre.length := by
  intro pre
  induction pre with
  | nil =>
    intro rest _
    rw [List.nil_append]
    exact findSub_append_self sep rest hne
  | cons a pre2 ih =>
    intro rest hninf
    have hnp : sep.isPrefixOf (a :: (pre2 ++ (sep ++ rest))) = false := by
      by_contra hc
      rw [Bool.not_eq_false, isPrefixOf_eq_true] at hc
      apply hninf
      by_cases hle : sep.length ≤ (a :: pre2).length
      · have hpre : sep <+: (a :: pre2) := by
          refine List.prefix_of_prefix_length_le hc ?_ hle
          exact (List.prefix_append (a :: pre2) (sep ++ rest))
        exact (hpre.trans (List.prefix_append _ _)).isInfix
      · push_neg at hle
        obtain ⟨t, ht⟩ := hc
        have hsep_eq : sep = (a :: pre2) ++ sep.take (sep.length - (a :: pre2).length) := by
          have h1 := congrArg (List.take sep.length) ht
          rw [List.take_append_eq_append_take, List.take_of_length_le le_rfl] at h1
          rw [Nat.sub_self] at h1
          simp only [List.take_zero, List.append_nil] at h1
          rw [← List.cons_append] at h1
          rw [List.take_append_eq_append_take,
            List.take_of_length_le (le_of_lt hle),
            List.take_append_eq_append_take,
            show sep.length - (a :: pre2).length - sep.length = 0 by omega,
            List.take_zero, List.append_nil] at h1
          exact h1
        have htk : sep.take (sep.length - (a :: pre2).length) <+: sep.dropLast := by
          rw [List.dropLast_eq_take]
          rw [show sep.take (sep.length - (a :: pre2).length)
              = (sep.take (sep.length - 1)).take (sep.length - (a :: pre2).length) by
            rw [List.take_take]
            congr 1
            have hm : 1 ≤ (a :: pre2).length := by simp
            omega]
          exact List.take_prefix _ _
        apply List.IsPrefix.isInfix
        obtain ⟨t2, ht2⟩ := htk
        refine ⟨t2, ?_⟩
        nth_rewrite 1 [hsep_eq]
        rw [List.append_assoc, ht2]
    have hih := ih rest (fun hinf => hninf (by
      obtain ⟨s, t, hst⟩ := hinf
      exact ⟨a :: s, t, by rw [List.cons_append, List.cons_append, hst]; rfl⟩))
    rw [List.cons_append, findSub, if_neg (by simp [hnp]), hih]
    simp

/-- Extraction of the middle segment from
`path ++ sep ++ body ++ sep ++ digest` when the separator occurs in
neither `path ++ sep.dropLast` nor `body ++ sep.dropLast` (no
occurrence inside path or body, and none straddling into the following
separator). -/
theorem extractSegment_eapi (pathB body tail : Bytes)
    (hp : ¬ eapiSep <:+: (pathB ++ eapiSep.dropLast))
    (hb : ¬ eapiSep <:+: (body ++ eapiSep.dropLast)) :
    extractSegment eapiSep (pathB ++ eapiSep ++ body ++ eapiSep ++ tail)
      = some body := by
  have hne : eapiSep ≠ [] := by decide
  have hassoc : pathB ++ eapiSep ++ body ++ eapiSep ++ tail
      = pathB ++ (eapiSep ++ (body ++ (eapiSep ++ tail))) := by
    simp [List.append_assoc]
  have h1 : findSub eapiSep (pathB ++ (eapiSep ++ (body ++ (eapiSep ++ tail))))
      = some pathB.length :=
    findSub_first_at eapiSep hne pathB (body ++ (eapiSep ++ tail)) hp
  have hdrop : (pathB ++ (eapiSep ++ (body ++ (eapiSep ++ tail)))).drop
      (pathB.length + eapiSep.length) = body ++ (eapiSep ++ tail) := by
    rw [← List.append_assoc pathB eapiSep]
    rw [show pathB.length + eapiSep.length = (pathB ++ eapiSep).length by
      rw [List.length_append]]
    exact List.drop_left _ _
  have h2 : findSub eapiSep (body ++ (eapiSep ++ tail)) = some body.length :=
    findSub_first_at eapiSep hne body tail hb
  rw [hassoc]
  simp only [extractSegment, h1, hdrop, h2]
  rw [List.take_left]

/-- C2 counterexample: for the params whose JSON serialization is the
string literal containing the separator itself (the bytes
`"` ++ `-36cd479b6b5-` ++ `"`, a JSON-serializable value), decoding the
encoded wire form returns only the segment before the embedded
separator, not the original params — the round trip fails as the claim
states it, even with an exactly invertible cipher. -/
theorem eapi_roundtrip_sep_counterexample :
    eapiDecodeBody List.reverse
      (eapiEncode List.reverse (fun _ => [100, 105, 103]) [97, 112, 105]
        ([34] ++ eapiSep ++ [34]))
      = some [34] ∧
    ([34] : Bytes) ≠ [34] ++ eapiSep ++ [34] := by
  exact ⟨by decide, by decide⟩

/-- C2 (amended): the eapi signature/encrypt/decrypt cycle is exactly
invertible with the fixed key — decrypting the encoded wire form with
the same key recovers the exact `path-body-digest` concatenation for
every params; the original params serialization is extracted back
whenever the separator occurs in neither the path nor the JSON body
(nor straddles into the following separator, which no valid JSON can
produce); and the same ECB round-trip law holds for the other locally
verifiable layers: the LINUX variant's `eparams` layer and the eapi
response-decrypt layer (the WEB variant's outer encoding stays one-way
at the HTTP boundary). -/
theorem eapi_encode_decode_amended (E D digest : Bytes → Bytes)
    (hLen : ∀ b, b.length = 16 → (E b).length = 16)
    (hInv : ∀ b, b.length = 16 → D (E b) = b)
    (pathB body eparams resp : Bytes) :
    aesEcbDecrypt D (eapiEncode E digest pathB body) = eapiText digest pathB body ∧
    (¬ eapiSep <:+: (pathB ++ eapiSep.dropLast) →
     ¬ eapiSep <:+: (body ++ eapiSep.dropLast) →
      eapiDecodeBody D (eapiEncode E digest pathB body) = some body) ∧
    linuxApiDecode D (linuxApiEncode E eparams) = eparams ∧
    aesEcbDecrypt D (aesEcbEncrypt E resp) = resp := by
  have h := aesEcb_roundtrip E D hLen hInv (eapiText digest pathB body)
  refine ⟨h, fun hp hb => ?_, aesEcb_roundtrip E D hLen hInv eparams,
    aesEcb_roundtrip E D hLen hInv resp⟩
  show extractSegment eapiSep (aesEcbDecrypt D (eapiEncode E digest pathB body))
    = some body
  rw [show eapiEncode E digest pathB body
    = aesEcbEncrypt E (eapiText digest pathB body) from rfl, h]
  exact extractSegment_eapi pathB body _ hp hb

/-- Witness for the amended C2 with a concrete involutive,
length-preserving block cipher (`List.reverse`), a concrete digest,
the path `api`, the body `{}` and a concrete LINUX payload. -/
theorem eapi_encode_decode_amended_witness :
    eapiDecodeBody List.reverse
      (eapiEncode List.reverse (fun _ => [100, 105, 103]) [97, 112, 105] [123, 125])
      = some [123, 125] ∧
    linuxApiDecode List.reverse (linuxApiEncode List.reverse [101, 0, 300]) = [101, 0, 300] :=
  ⟨(eapi_encode_decode_amended List.reverse List.reverse (fun _ => [100, 105, 103])
      (fun b hbl => by simpa using hbl)
      (fun b _ => List.reverse_reverse b)
      [97, 112, 105] [123, 125] [] []).2.1 (by decide) (by decide),
   (eapi_encode_decode_amended List.reverse List.reverse (fun _ => [100, 105, 103])
      (fun b hbl => by simpa using hbl)
      (fun b _ => List.reverse_reverse b)
      [97, 112, 105] [123, 125] [101, 0, 300] []).2.2.1⟩
